import Mathlib

/-!
Shallow embedding of the markdown/Google-Docs converter core
(`google_docs_mcp/markdown_renderer.py` and `google_docs_mcp/docs.py`).

Python strings are modelled as Lean `String` (both count length in Unicode
code points, Python's "code units" for `len`).  Python `int` is modelled as
`Int`.  Python dicts that carry style payloads are modelled as ordered
association lists (`Style`), matching Python's insertion-ordered dicts, so
`",".join(d.keys())` is `joinKeys`.  Python truthiness on optional strings
(`if tab_id:`) is `truthyS`, on style dicts (`if paragraph_style:`) is
`truthyStyle`.
-/

/-- Python truthiness of an optional string: `None` and `""` are falsy. -/
def truthyS : Option String → Bool
  | none => false
  | some s => s ≠ ""

/-- The `tabId` entry added to a location/range dict only when `self.tab_id`
is truthy. -/
def tabOpt (t : Option String) : Option String :=
  if truthyS t then t else none

/-- Python `text.endswith("\n")`. -/
def endsWithNl (s : String) : Bool :=
  s.data.getLast? = some '\n'

/-- Trailing-newline stripper on character lists: Python `rstrip("\n")`
removes every trailing newline. -/
def rstripNlChars (l : List Char) : List Char :=
  ((l.reverse).dropWhile (fun c => c = '\n')).reverse

/-- Python `s.rstrip("\n")`: strips all trailing newline characters. -/
def rstripNl (s : String) : String :=
  String.mk (rstripNlChars s.data)

/-- The whitespace set of Python `str.strip()` restricted to ASCII
(space, tab, newline, carriage return, vertical tab, form feed); the
claims only exercise ASCII whitespace. -/
def isPySpace (c : Char) : Bool :=
  c = ' ' ∨ c = '\t' ∨ c = '\n' ∨ c = '\r' ∨ c = '\x0b' ∨ c = '\x0c'

/-- Python `s.strip()`. -/
def pyStrip (s : String) : String :=
  String.mk (((s.data.dropWhile isPySpace).reverse.dropWhile isPySpace).reverse)

/-- `needle` is a prefix of `hay` (character lists). -/
def charsBeginWith : List Char → List Char → Bool
  | [], _ => true
  | _ :: _, [] => false
  | a :: as, b :: bs => a = b && charsBeginWith as bs

/-- `needle` occurs as a contiguous run inside `hay`. -/
def charsContain (needle : List Char) : List Char → Bool
  | [] => charsBeginWith needle []
  | h :: t => charsBeginWith needle (h :: t) || charsContain needle t

/-- Python `needle in hay` on strings (substring containment). -/
def strContains (hay needle : String) : Bool :=
  charsContain needle.data hay.data

/-- Python `s.startswith(pre)`. -/
def pyStartsWith (s pre : String) : Bool :=
  charsBeginWith pre.data s.data

/-- Python `str.replace(needle, "")` on character lists: removes every
(left-to-right, non-overlapping) occurrence of a non-empty `needle`.  The
`fuel` argument only makes the recursion structural (each step consumes at
least one character, so any fuel of at least the list's length computes
the replacement). -/
def removeAllOccFuel (needle : List Char) : Nat → List Char → List Char
  | _, [] => []
  | 0, l => l
  | fuel + 1, h :: t =>
    if needle ≠ [] ∧ charsBeginWith needle (h :: t) then
      removeAllOccFuel needle fuel (List.drop (needle.length - 1) t)
    else
      h :: removeAllOccFuel needle fuel t

/-- `removeAllOccFuel` with adequate fuel. -/
def removeAllOcc (needle l : List Char) : List Char :=
  removeAllOccFuel needle l.length l

/-- Python `s.replace(needle, "")` for non-empty `needle`. -/
def pyRemoveAll (s needle : String) : String :=
  String.mk (removeAllOcc needle.data s.data)

/-- Python `s.isdigit()` restricted to ASCII digits (the only case the
source exercises): non-empty and all characters are digits. -/
def pyIsDigit (s : String) : Bool :=
  s ≠ "" && s.data.all Char.isDigit

/-- Python `int(s)` on a digit string. -/
def strToNat (s : String) : Nat :=
  s.data.foldl (fun a c => a * 10 + (c.toNat - 48)) 0

/-- A JSON-like value, the payload type of style dicts. -/
inductive JVal where
  | s : String → JVal
  | n : ℚ → JVal
  | b : Bool → JVal
  | obj : List (String × JVal) → JVal

/-- A Python style dict: insertion-ordered key/value pairs. -/
def Style := List (String × JVal)

/-- Python `",".join(d.keys())`. -/
def joinKeys (st : Style) : String :=
  String.intercalate "," (st.map Prod.fst)

/-- Python truthiness of an optional style dict: `None` and `{}` are falsy. -/
def truthyStyle : Option Style → Bool
  | none => false
  | some l => !(List.isEmpty l)

/-- `markdown_renderer.Span` (the field `end` is a Lean keyword, renamed
`endIdx`). -/
structure Span where
  start : Int
  endIdx : Int
  style : Style

/-- `{"index": ..., "tabId"?: ...}` location dicts. -/
structure Loc where
  index : Int
  tabId : Option String

/-- `{"startIndex": ..., "endIndex": ..., "tabId"?: ...}` range dicts. -/
structure Rng where
  startIndex : Int
  endIndex : Int
  tabId : Option String

/-- One entry of `DocsRequestBuilder.requests`, tagged by its single key. -/
inductive Request where
  | insertText (location : Loc) (text : String)
  | updateParagraphStyle (range : Rng) (paragraphStyle : Style) (fields : String)
  | updateTextStyle (range : Rng) (textStyle : Style) (fields : String)
  | createParagraphBullets (range : Rng) (bulletPreset : String)

/-- `markdown_renderer.DocsRequestBuilder`: cursor, accumulated requests,
and the tab id fixed at construction. -/
structure DocsRequestBuilder where
  cursor : Int
  requests : List Request
  tabId : Option String

/-- `DocsRequestBuilder._insert_text`: no-op on empty text, otherwise
append an insertText request at the cursor and advance the cursor by the
text length; returns the pre-insertion cursor (the insertion start). -/
def DocsRequestBuilder.insertText (b : DocsRequestBuilder) (text : String) :
    Int × DocsRequestBuilder :=
  if text = "" then (b.cursor, b)
  else
    let location : Loc := ⟨b.cursor, tabOpt b.tabId⟩
    ( b.cursor,
      ⟨b.cursor + text.length,
       b.requests ++ [Request.insertText location text],
       b.tabId⟩ )

/-- The `text_to_insert` of `add_paragraph`: the given text, with a
newline appended when none is present. -/
def insTextOf (text : String) : String :=
  if endsWithNl text then text else text ++ "\n"

/-- `DocsRequestBuilder.add_paragraph`.  The Python `if spans:` guard is
behaviourally the fold over the list (an empty list contributes nothing). -/
def DocsRequestBuilder.addParagraph (b : DocsRequestBuilder) (text : String)
    (paragraph_style : Option Style) (spans : List Span)
    (list_type : Option String) : DocsRequestBuilder :=
  if text = "" then b
  else
    let text_to_insert := insTextOf text
    let text_length : Int := text_to_insert.length
    let sb := b.insertText text_to_insert
    let start := sb.1
    let b1 := sb.2
    let endI := start + text_length
    let b2 :=
      if truthyStyle paragraph_style then
        let ps := paragraph_style.getD []
        { b1 with requests := b1.requests ++
            [Request.updateParagraphStyle ⟨start, endI, tabOpt b.tabId⟩ ps (joinKeys ps)] }
      else b1
    let b3 := spans.foldl (fun acc sp =>
      if sp.endIdx ≤ sp.start then acc
      else
        { acc with requests := acc.requests ++
            [Request.updateTextStyle ⟨start + sp.start, start + sp.endIdx, tabOpt b.tabId⟩
              sp.style (joinKeys sp.style)] }) b2
    if truthyS list_type then
      let preset :=
        if list_type = some "ordered" then "NUMBERED_DECIMAL_ALPHA_ROMAN"
        else "BULLET_DISC_CIRCLE_SQUARE"
      { b3 with requests := b3.requests ++
          [Request.createParagraphBullets ⟨start, endI, tabOpt b.tabId⟩ preset] }
    else b3

/-- `DocsRequestBuilder.__init__`: cursor starts at `start_index`; when
`prepend_newline` is set a single bare newline is inserted first. -/
def DocsRequestBuilder.init (start_index : Int) (prepend_newline : Bool)
    (tab_id : Option String) : DocsRequestBuilder :=
  let b : DocsRequestBuilder := ⟨start_index, [], tab_id⟩
  if prepend_newline then (b.insertText "\n").2 else b

/-- One child node of a markdown inline token, as consumed by
`_parse_inline` (`other` stands for any child type the loop ignores). -/
inductive Inline where
  | text (content : String)
  | softbreak
  | hardbreak
  | strong_open
  | strong_close
  | em_open
  | em_close
  | link_open (href : Option String)
  | link_close
  | code_inline (content : String)
  | other

/-- An open-style frame of `_parse_inline`'s stack: `{kind, start, meta}`
(the only meta entry ever read is `href`). -/
structure Frame where
  kind : String
  start : Nat
  href : Option String

/-- `_parse_inline.pop(kind)`: search the stack from the top downward for
the innermost frame of the given kind and remove it.  The Lean list stores
the top of the Python stack at its head. -/
def popFrame (kind : String) : List Frame → Option (Frame × List Frame)
  | [] => none
  | f :: rest =>
    if f.kind = kind then some (f, rest)
    else
      match popFrame kind rest with
      | some (g, rest') => some (g, f :: rest')
      | none => none

/-- The monospace style attached to inline code runs. -/
def inlineCodeStyle : Style :=
  [("weightedFontFamily", JVal.obj
      [("fontFamily", JVal.s "Roboto Mono"), ("weight", JVal.n 400)])]

/-- The running state of `_parse_inline`: accumulated text, emitted spans,
cursor, and the stack of open frames (top at head). -/
structure InlineState where
  text : String
  spans : List Span
  cursor : Nat
  stack : List Frame

/-- One iteration of `_parse_inline`'s loop over the inline children. -/
def stepInline (st : InlineState) : Inline → InlineState
  | .text s =>
    { st with text := st.text ++ s, cursor := st.cursor + s.length }
  | .softbreak =>
    { st with text := st.text ++ "\n", cursor := st.cursor + 1 }
  | .hardbreak =>
    { st with text := st.text ++ "\n", cursor := st.cursor + 1 }
  | .strong_open =>
    { st with stack := ⟨"bold", st.cursor, none⟩ :: st.stack }
  | .strong_close =>
    match popFrame "bold" st.stack with
    | some (f, rest) =>
      if f.start < st.cursor then
        let sp : Span := ⟨(f.start : Int), (st.cursor : Int), [("bold", JVal.b true)]⟩
        { st with stack := rest, spans := st.spans ++ [sp] }
      else { st with stack := rest }
    | none => st
  | .em_open =>
    { st with stack := ⟨"italic", st.cursor, none⟩ :: st.stack }
  | .em_close =>
    match popFrame "italic" st.stack with
    | some (f, rest) =>
      if f.start < st.cursor then
        let sp : Span := ⟨(f.start : Int), (st.cursor : Int), [("italic", JVal.b true)]⟩
        { st with stack := rest, spans := st.spans ++ [sp] }
      else { st with stack := rest }
    | none => st
  | .link_open href =>
    { st with stack := ⟨"link", st.cursor, href⟩ :: st.stack }
  | .link_close =>
    match popFrame "link" st.stack with
    | some (f, rest) =>
      if f.start < st.cursor ∧ truthyS f.href then
        let sp : Span := ⟨(f.start : Int), (st.cursor : Int),
          [("link", JVal.obj [("url", JVal.s (f.href.getD ""))])]⟩
        { st with stack := rest, spans := st.spans ++ [sp] }
      else { st with stack := rest }
    | none => st
  | .code_inline s =>
    let sp : Span := ⟨(st.cursor : Int), ((st.cursor + s.length : Nat) : Int), inlineCodeStyle⟩
    { st with text := st.text ++ s, cursor := st.cursor + s.length, spans := st.spans ++ [sp] }
  | .other => st

/-- `_parse_inline` run over a list of inline children, full final state. -/
def parseInlineState (children : List Inline) : InlineState :=
  children.foldl stepInline ⟨"", [], 0, []⟩

/-- `_parse_inline`: returns `("".join(text_parts), spans)`. -/
def parseInline (children : List Inline) : String × List Span :=
  let st := parseInlineState children
  (st.text, st.spans)

/-- A markdown-it token as consumed by `build_markdown_requests` and
`_render_list`: its `type`, `tag`, `content`, and (for inline tokens) its
children (`token.children or []` is the empty-list default). -/
structure Token where
  ttype : String
  tag : String
  content : String
  children : List Inline

/-- The monospace / small-font / light-gray-background span style attached
to a fenced code block's whole text. -/
def codeSpanStyle : Style :=
  [("weightedFontFamily", JVal.obj
      [("fontFamily", JVal.s "Roboto Mono"), ("weight", JVal.n 400)]),
   ("fontSize", JVal.obj
      [("magnitude", JVal.n 9), ("unit", JVal.s "PT")]),
   ("backgroundColor", JVal.obj
      [("color", JVal.obj
        [("rgbColor", JVal.obj
          [("red", JVal.n (mkRat 19 20)), ("green", JVal.n (mkRat 19 20)),
           ("blue", JVal.n (mkRat 19 20))])])])]

/-- The indent / space-above / space-below paragraph style of a fenced
code block. -/
def codeBlockParagraphStyle : Style :=
  [("indentStart", JVal.obj [("magnitude", JVal.n 18), ("unit", JVal.s "PT")]),
   ("indentEnd", JVal.obj [("magnitude", JVal.n 18), ("unit", JVal.s "PT")]),
   ("spaceAbove", JVal.obj [("magnitude", JVal.n 6), ("unit", JVal.s "PT")]),
   ("spaceBelow", JVal.obj [("magnitude", JVal.n 6), ("unit", JVal.s "PT")])]

/-- The inner `while` of `_render_list` walking one list item until its
`list_item_close`; returns the builder and the remaining tokens.  The
`fuel` argument bounds the loop (the Python index strictly increases, so a
fuel of the token-list length always suffices). -/
def renderItemGo : Nat → String → DocsRequestBuilder → List Token →
    DocsRequestBuilder × List Token
  | 0, _, b, toks => (b, toks)
  | _ + 1, _, b, [] => (b, [])
  | fuel + 1, listType, b, t :: rest =>
    if t.ttype = "list_item_close" then (b, rest)
    else if t.ttype = "paragraph_open" then
      match rest with
      | inline :: rest2 =>
        let ts := parseInline inline.children
        let b' := b.addParagraph ts.1 none ts.2 (some listType)
        renderItemGo fuel listType b' (rest2.drop 1)
      | [] => (b, [])
    else renderItemGo fuel listType b rest

/-- `_render_list`'s outer loop over a list block's tokens. -/
def renderListGo : Nat → String → DocsRequestBuilder → List Token →
    DocsRequestBuilder × List Token
  | 0, _, b, toks => (b, toks)
  | _ + 1, _, b, [] => (b, [])
  | fuel + 1, listType, b, t :: rest =>
    let closeType :=
      if listType = "bullet" then "bullet_list_close" else "ordered_list_close"
    if t.ttype = closeType then (b, rest)
    else if t.ttype = "list_item_open" then
      let br := renderItemGo fuel listType b rest
      renderListGo fuel listType br.1 br.2
    else renderListGo fuel listType b rest

/-- The token-dispatch loop of `build_markdown_requests`. -/
def renderLoop : Nat → DocsRequestBuilder → List Token → DocsRequestBuilder
  | 0, b, _ => b
  | _ + 1, b, [] => b
  | fuel + 1, b, t :: rest =>
    if t.ttype = "heading_open" then
      let levelStr := if pyStartsWith t.tag "h" then t.tag.drop 1 else t.tag
      let level := if pyIsDigit levelStr then strToNat levelStr else 1
      match rest with
      | inline :: rest2 =>
        let ts := parseInline inline.children
        let b' := b.addParagraph ts.1
          (some [("namedStyleType", JVal.s ("HEADING_" ++ Nat.repr (min level 6)))])
          ts.2 none
        renderLoop fuel b' (rest2.drop 1)
      | [] => b
    else if t.ttype = "paragraph_open" then
      match rest with
      | inline :: rest2 =>
        let ts := parseInline inline.children
        let b' := if pyStrip ts.1 ≠ "" then b.addParagraph ts.1 none ts.2 none else b
        renderLoop fuel b' (rest2.drop 1)
      | [] => b
    else if t.ttype = "bullet_list_open" then
      let br := renderListGo fuel "bullet" b rest
      renderLoop fuel br.1 br.2
    else if t.ttype = "ordered_list_open" then
      let br := renderListGo fuel "ordered" b rest
      renderLoop fuel br.1 br.2
    else if t.ttype = "fence" then
      let codeText := rstripNl t.content
      let b' :=
        if codeText ≠ "" then
          b.addParagraph codeText (some codeBlockParagraphStyle)
            [⟨0, (codeText.length : Int), codeSpanStyle⟩] none
        else b
      renderLoop fuel b' rest
    else renderLoop fuel b rest

/-- `build_markdown_requests`, parameterised by the external markdown
parser (`markdown_it`'s `md.parse`, a third-party library outside this
repository). -/
def build_markdown_requests (parse : String → List Token)
    (markdown_text : String) (start_index : Int) (prepend_newline : Bool)
    (tab_id : Option String) : List Request × Int :=
  if markdown_text = "" then ([], start_index)
  else
    let tokens := parse markdown_text
    let b := DocsRequestBuilder.init start_index prepend_newline tab_id
    let b' := renderLoop (tokens.length + 1) b tokens
    (b'.requests, b'.cursor)

/-- Modelled from the spec: the fenced-code clause of §4.3 says the block's
content is used "with exactly one trailing newline stripped"; this is that
description verbatim, to be compared with the source's `rstrip("\n")`
(`rstripNl`), which strips every trailing newline. -/
def stripOneNewline (s : String) : String :=
  if endsWithNl s then String.mk (s.data.dropLast) else s

/-- `{"red"?, "green"?, "blue"?}` rgb dicts; missing channels default to 0
at the use sites (`bg_color.get("red", 0)`).  Channel values are modelled
as rationals (the Python floats in play, 0.9 and 0.95, are exact). -/
structure RgbColor where
  red : Option ℚ
  green : Option ℚ
  blue : Option ℚ

/-- The empty rgb dict `{}`. -/
def RgbColor.empty : RgbColor := ⟨none, none, none⟩

/-- `{"rgbColor"?: ...}`. -/
structure ColorInner where
  rgbColor : Option RgbColor

/-- The empty dict `{}` at the `color` level. -/
def ColorInner.empty : ColorInner := ⟨none⟩

/-- `{"color"?: ...}` as stored under `backgroundColor`. -/
structure BgColor where
  color : Option ColorInner

/-- The empty dict `{}` at the `backgroundColor` level. -/
def BgColor.empty : BgColor := ⟨none⟩

/-- `{"fontFamily"?: ...}` of a `weightedFontFamily` dict. -/
structure WeightedFontFamily where
  fontFamily : Option String

/-- The empty `weightedFontFamily` dict `{}`. -/
def WeightedFontFamily.empty : WeightedFontFamily := ⟨none⟩

/-- The text-style dict of a text run, restricted to the keys the
extractor reads. -/
structure TextStyle where
  weightedFontFamily : Option WeightedFontFamily
  backgroundColor : Option BgColor

/-- The empty text-style dict `{}`. -/
def TextStyle.empty : TextStyle := ⟨none, none⟩

/-- `text_style.get("weightedFontFamily", {}).get("fontFamily", "")`. -/
def TextStyle.fontFamilyOf (ts : TextStyle) : String :=
  ((ts.weightedFontFamily.getD WeightedFontFamily.empty).fontFamily).getD ""

/-- `....get("backgroundColor", {}).get("color", {}).get("rgbColor", {})`. -/
def bgRgbOf (bg : Option BgColor) : RgbColor :=
  (((bg.getD BgColor.empty).color.getD ColorInner.empty).rgbColor).getD RgbColor.empty

/-- The all-channels-above-0.9 test shared by both code-block heuristics
(`mkRat 9 10` is the source's literal 0.9, exactly). -/
def isGrayRgb (c : RgbColor) : Bool :=
  (mkRat 9 10 < c.red.getD 0) ∧ (mkRat 9 10 < c.green.getD 0) ∧
    (mkRat 9 10 < c.blue.getD 0)

/-- `"Mono" in font_family or "Courier" in font_family`. -/
def isMonoFamily (fam : String) : Bool :=
  strContains fam "Mono" || strContains fam "Courier"

/-- A `{"textRun"?: {"content", "textStyle"?}}` paragraph element. -/
structure TextRun where
  content : String
  textStyle : Option TextStyle

/-- A paragraph element; `textRun` may be absent. -/
structure ParaElement where
  textRun : Option TextRun

/-- `paragraph.get("paragraphStyle", {})`, restricted to the key read. -/
structure ParagraphStyle where
  namedStyleType : Option String

/-- The empty paragraph-style dict `{}`. -/
def ParagraphStyle.empty : ParagraphStyle := ⟨none⟩

/-- A `{"paragraphStyle"?, "elements"}` paragraph dict. -/
structure Paragraph where
  paragraphStyle : Option ParagraphStyle
  elements : List ParaElement

/-- The native code-block marker character U+E907. -/
def markerChar : Char := ''

/-- `docs._is_code_block_paragraph`: first element's run starts with the
U+E907 marker, or its style is monospace with a light-gray background. -/
def isCodeBlockParagraph (p : Paragraph) : Bool :=
  match p.elements with
  | [] => false
  | first :: _ =>
    match first.textRun with
    | none => false
    | some tr =>
      if tr.content.data.head? = some markerChar then true
      else
        let ts := tr.textStyle.getD TextStyle.empty
        isMonoFamily ts.fontFamilyOf && isGrayRgb (bgRgbOf ts.backgroundColor)

/-- A table-cell content element.  The source only ever looks at the
`paragraph` key of cell content, so nested tables inside cells (never
inspected by the code) are not represented. -/
structure CellElement where
  paragraph : Option Paragraph

/-- `{"backgroundColor"?}` of `tableCellStyle`, restricted to the key read. -/
structure CellStyle where
  backgroundColor : Option BgColor

/-- The empty cell-style dict `{}`. -/
def CellStyle.empty : CellStyle := ⟨none⟩

/-- A `{"tableCellStyle"?, "content"}` table cell. -/
structure TableCell where
  tableCellStyle : Option CellStyle
  content : List CellElement

/-- A `{"tableCells"}` table row. -/
structure TableRow where
  tableCells : List TableCell

/-- A `{"tableRows"}` table dict. -/
structure Table where
  tableRows : List TableRow

/-- `docs._extract_text_from_table`: concatenate every run's non-empty
content, row-major. -/
def extractTextFromTable (t : Table) : String :=
  String.join (t.tableRows.map (fun row =>
    String.join (row.tableCells.map (fun cell =>
      String.join (cell.content.map (fun ce =>
        match ce.paragraph with
        | none => ""
        | some para =>
          String.join (para.elements.map (fun el =>
            match el.textRun with
            | none => ""
            | some tr => tr.content))))))))

/-- The monospace scan of `_is_code_block_table`'s inner loops: some run
inside the cell uses a Mono/Courier font family (the `break` in the source
only short-circuits; it cannot unset the flag). -/
def cellHasMonospace (cell : TableCell) : Bool :=
  cell.content.any (fun ce =>
    match ce.paragraph with
    | none => false
    | some para =>
      para.elements.any (fun el =>
        match el.textRun with
        | none => false
        | some tr =>
          isMonoFamily (tr.textStyle.getD TextStyle.empty).fontFamilyOf))

/-- `docs._is_code_block_table`: exactly one row, exactly one cell, gray
cell background, and some monospace run. -/
def isCodeBlockTable (t : Table) : Bool :=
  match t.tableRows with
  | [row] =>
    match row.tableCells with
    | [cell] =>
      let bg := bgRgbOf (cell.tableCellStyle.getD CellStyle.empty).backgroundColor
      isGrayRgb bg && cellHasMonospace cell
    | _ => false
  | _ => false

/-- A `{"table"?, "paragraph"?}` structural element of a body. -/
structure StructuralElement where
  table : Option Table
  paragraph : Option Paragraph

/-- A `{"content"}` body dict. -/
structure Body where
  content : List StructuralElement

/-- The empty body dict `{}`. -/
def Body.empty : Body := ⟨[]⟩

/-- `{"tabId"?, "title"?}` tab properties. -/
structure TabProps where
  tabId : Option String
  title : Option String

/-- The empty tab-properties dict `{}`. -/
def TabProps.empty : TabProps := ⟨none, none⟩

/-- A `{"tabProperties"?, "childTabs"}` tab dict (the other keys of a tab,
such as `documentTab`, are not read by the modelled functions). -/
inductive Tab where
  | mk (tabProperties : Option TabProps) (childTabs : List Tab)

/-- Accessor for a tab's properties. -/
def Tab.tabProperties : Tab → Option TabProps
  | .mk p _ => p

/-- Accessor for a tab's child list. -/
def Tab.childTabs : Tab → List Tab
  | .mk _ c => c

/-- `tab.get("tabProperties", {}).get("tabId")`. -/
def Tab.tabIdOf (t : Tab) : Option String :=
  (t.tabProperties.getD TabProps.empty).tabId

/-- A document dict, restricted to the keys the modelled functions read. -/
structure Document where
  title : Option String
  body : Option Body
  tabs : List Tab

/-- The text chunks a single paragraph contributes in
`_extract_plain_text` (marker stripping, trailing-newline strip, heading
formatting), without the fence bookkeeping. -/
def paragraphChunks (p : Paragraph) : List String :=
  let isCode := isCodeBlockParagraph p
  let parts := (p.elements.enum.map (fun ei =>
    match ei.2.textRun with
    | none => ""
    | some tr =>
      if tr.content = "" then ""
      else
        let text :=
          if ei.1 = 0 ∧ isCode ∧ tr.content.data.head? = some markerChar then
            String.mk tr.content.data.tail
          else tr.content
        text))
  let paragraphText := rstripNl (String.join parts)
  if paragraphText = "" then []
  else
    let namedStyle :=
      ((p.paragraphStyle.getD ParagraphStyle.empty).namedStyleType).getD ""
    if pyStartsWith namedStyle "HEADING_" then
      let level := pyRemoveAll namedStyle "HEADING_"
      if pyIsDigit level then
        [String.mk (List.replicate (strToNat level) '#') ++ " " ++ paragraphText ++ "\n\n"]
      else [paragraphText ++ "\n"]
    else [paragraphText ++ "\n"]

/-- The body-walk of `_extract_plain_text`, threading `in_code_block` and
emitting the chunk list (the final entry closes a still-open code block). -/
def extractGo : Bool → List StructuralElement → List String
  | inCode, [] => if inCode then ["```\n"] else []
  | inCode, se :: rest =>
    match se.table with
    | some t =>
      (if isCodeBlockTable t then ["```\n", extractTextFromTable t, "```\n"]
       else [extractTextFromTable t]) ++ extractGo inCode rest
    | none =>
      match se.paragraph with
      | none => extractGo inCode rest
      | some p =>
        let isCode := isCodeBlockParagraph p
        if isCode ∧ ¬inCode then
          "```\n" :: (paragraphChunks p ++ extractGo true rest)
        else if ¬isCode ∧ inCode then
          "```\n" :: (paragraphChunks p ++ extractGo false rest)
        else paragraphChunks p ++ extractGo inCode rest

/-- `docs._extract_plain_text`: walk the body content and strip the joined
chunks. -/
def extractPlainText (doc : Document) : String :=
  pyStrip (String.join (extractGo false (doc.body.getD Body.empty).content))

/-- `GoogleDocsService._iter_tabs`: recursive pre-order walk yielding
`(tab, depth, parent_id)` triples. -/
def iterTabs : List Tab → Nat → Option String → List (Tab × Nat × Option String)
  | [], _, _ => []
  | Tab.mk props children :: ts, depth, parent =>
    (Tab.mk props children, depth, parent) ::
      (iterTabs children (depth + 1) ((props.getD TabProps.empty).tabId) ++
        iterTabs ts depth parent)

/-- `GoogleDocsService._flatten_tabs`. -/
def flattenTabs (doc : Document) : List Tab :=
  (iterTabs doc.tabs 0 none).map (fun x => x.1)

/-- `docs.TabMetadata`. -/
structure TabMetadata where
  tab_id : Option String
  title : Option String
  depth : Nat
  parent_id : Option String

/-- `GoogleDocsService._list_tab_metadata`: metadata for every flattened
tab, or one synthetic whole-document root if the document has no tabs. -/
def listTabMetadata (doc : Document) : List TabMetadata :=
  let metadata := (iterTabs doc.tabs 0 none).map (fun x =>
    let props := x.1.tabProperties.getD TabProps.empty
    TabMetadata.mk props.tabId props.title x.2.1 x.2.2)
  if metadata.isEmpty then [TabMetadata.mk none doc.title 0 none]
  else metadata

/-- `GoogleDocsService._resolve_tab`; the raised `GoogleDocsError` is the
`Except.error` case, carrying the message string. -/
def resolveTab (doc : Document) (tab_id : Option String) :
    Except String (Option Tab × Option String) :=
  if truthyS tab_id then
    match (flattenTabs doc).find? (fun t => t.tabIdOf = tab_id) with
    | some t => Except.ok (some t, tab_id)
    | none =>
      Except.error ("Tab '" ++ tab_id.getD "" ++ "' not found in document.")
  else
    match flattenTabs doc with
    | [] => Except.ok (none, none)
    | t :: _ => Except.ok (some t, t.tabIdOf)

/-- The updateParagraphStyle requests `add_paragraph` appends (one when
the style dict is truthy, none otherwise). -/
def paraStyleReqs (tab : Option String) (s e : Int) (ps : Option Style) :
    List Request :=
  if truthyStyle ps then
    [Request.updateParagraphStyle ⟨s, e, tabOpt tab⟩ (ps.getD [])
      (joinKeys (ps.getD []))]
  else []

/-- The updateTextStyle requests `add_paragraph` appends: one per
non-degenerate span, offsets shifted by the insertion start. -/
def spanReqs (tab : Option String) (s : Int) (spans : List Span) :
    List Request :=
  (spans.filter (fun sp => !decide (sp.endIdx ≤ sp.start))).map (fun sp =>
    Request.updateTextStyle ⟨s + sp.start, s + sp.endIdx, tabOpt tab⟩
      sp.style (joinKeys sp.style))

/-- The createParagraphBullets requests `add_paragraph` appends. -/
def bulletReqs (tab : Option String) (s e : Int) (lt : Option String) :
    List Request :=
  if truthyS lt then
    [Request.createParagraphBullets ⟨s, e, tabOpt tab⟩
      (if lt = some "ordered" then "NUMBERED_DECIMAL_ALPHA_ROMAN"
       else "BULLET_DISC_CIRCLE_SQUARE")]
  else []

lemma nl_length : ("\n" : String).length = 1 := rfl

lemma insTextOf_ne_empty (text : String) (h : text ≠ "") : insTextOf text ≠ "" := by
  unfold insTextOf
  split
  · exact h
  · intro hc
    have : (text ++ "\n").data = [] := by rw [hc]
    simp [String.data_append] at this

lemma insTextOf_length (text : String) :
    (insTextOf text).length = if endsWithNl text then text.length else text.length + 1 := by
  unfold insTextOf
  split <;> simp [String.length_append, nl_length]

lemma insertText_fst (b : DocsRequestBuilder) (t : String) :
    (b.insertText t).1 = b.cursor := by
  unfold DocsRequestBuilder.insertText
  split <;> rfl

lemma insertText_requests (b : DocsRequestBuilder) (t : String) (h : t ≠ "") :
    (b.insertText t).2.requests =
      b.requests ++ [Request.insertText ⟨b.cursor, tabOpt b.tabId⟩ t] := by
  unfold DocsRequestBuilder.insertText
  rw [if_neg h]

lemma insertText_cursor (b : DocsRequestBuilder) (t : String) :
    (b.insertText t).2.cursor = b.cursor + t.length := by
  unfold DocsRequestBuilder.insertText
  split
  · rename_i h
    simp [h]
  · rfl

lemma insertText_tabId (b : DocsRequestBuilder) (t : String) :
    (b.insertText t).2.tabId = b.tabId := by
  unfold DocsRequestBuilder.insertText
  split <;> rfl

lemma foldl_spanReqs (R : Span → Request) :
    ∀ (spans : List Span) (acc : DocsRequestBuilder),
      spans.foldl (fun a sp => if sp.endIdx ≤ sp.start then a
        else { a with requests := a.requests ++ [R sp] }) acc
      = { acc with requests := acc.requests ++
          ((spans.filter (fun sp => !decide (sp.endIdx ≤ sp.start))).map R) } := by
  intro spans
  induction spans with
  | nil => intro acc; simp
  | cons sp t ih =>
    intro acc
    by_cases h : sp.endIdx ≤ sp.start
    · simp [List.foldl_cons, h, ih]
    · simp [List.foldl_cons, h, ih]

/-- Full characterization of the requests `add_paragraph` emits for
non-empty text: the insertText at the pre-call cursor, then the
paragraph-style, span, and bullet requests, in source order. -/
lemma addParagraph_requests (b : DocsRequestBuilder) (text : String)
    (ps : Option Style) (spans : List Span) (lt : Option String)
    (h : text ≠ "") :
    (b.addParagraph text ps spans lt).requests =
      b.requests ++ Request.insertText ⟨b.cursor, tabOpt b.tabId⟩ (insTextOf text) ::
        (paraStyleReqs b.tabId b.cursor (b.cursor + (insTextOf text).length) ps ++
         spanReqs b.tabId b.cursor spans ++
         bulletReqs b.tabId b.cursor (b.cursor + (insTextOf text).length) lt) := by
  have hne := insTextOf_ne_empty text h
  simp only [DocsRequestBuilder.addParagraph, if_neg h, foldl_spanReqs]
  simp only [insertText_fst, insertText_requests b (insTextOf text) hne,
    insertText_cursor, insertText_tabId]
  unfold paraStyleReqs spanReqs bulletReqs
  by_cases hps : truthyStyle ps = true <;>
    by_cases hlt : truthyS lt = true <;>
      simp [hps, hlt, insertText_requests b (insTextOf text) hne, List.append_assoc]

lemma addParagraph_cursor (b : DocsRequestBuilder) (text : String)
    (ps : Option Style) (spans : List Span) (lt : Option String) :
    (b.addParagraph text ps spans lt).cursor =
      b.cursor + (if text = "" then 0 else ((insTextOf text).length : Int)) := by
  by_cases h : text = ""
  · simp [DocsRequestBuilder.addParagraph, h]
  · simp only [DocsRequestBuilder.addParagraph, if_neg h, foldl_spanReqs]
    by_cases hps : truthyStyle ps = true <;>
      by_cases hlt : truthyS lt = true <;>
        simp [hps, hlt, insertText_cursor]

/-- One call of a request-building sequence: either a direct
`_insert_text` or an `add_paragraph`. -/
inductive BCall where
  | insert (text : String)
  | para (text : String) (ps : Option Style) (spans : List Span) (lt : Option String)

/-- Apply one call to the builder. -/
def applyCall (b : DocsRequestBuilder) : BCall → DocsRequestBuilder
  | .insert t => (b.insertText t).2
  | .para t ps spans lt => b.addParagraph t ps spans lt

/-- Apply a whole sequence of calls in order. -/
def applyCalls (b : DocsRequestBuilder) (calls : List BCall) : DocsRequestBuilder :=
  calls.foldl applyCall b

/-- The number of code units the call actually inserts: the text length,
plus the newline `add_paragraph` appends when the (non-empty) text does
not already end in one. -/
def insertedLen : BCall → Nat
  | .insert t => t.length
  | .para t _ _ _ => if t = "" then 0 else (insTextOf t).length

lemma applyCall_cursor (b : DocsRequestBuilder) (c : BCall) :
    (applyCall b c).cursor = b.cursor + (insertedLen c : Int) := by
  cases c with
  | insert t =>
    by_cases h : t = ""
    · simp [applyCall, DocsRequestBuilder.insertText, h, insertedLen]
    · simp [applyCall, DocsRequestBuilder.insertText, h, insertedLen]
  | para t ps spans lt =>
    by_cases h : t = ""
    · simp [applyCall, addParagraph_cursor, h, insertedLen]
    · simp [applyCall, addParagraph_cursor, h, insertedLen]

lemma applyCalls_cursor :
    ∀ (calls : List BCall) (b : DocsRequestBuilder),
      (applyCalls b calls).cursor =
        b.cursor + ((calls.map (fun c => (insertedLen c : Int))).sum) := by
  intro calls
  induction calls with
  | nil => intro b; simp [applyCalls]
  | cons c t ih =>
    intro b
    show (applyCalls (applyCall b c) t).cursor = _
    rw [ih, applyCall_cursor]
    simp [add_assoc]

lemma init_cursor (start : Int) (pre : Bool) (tab : Option String) :
    (DocsRequestBuilder.init start pre tab).cursor =
      start + (if pre then 1 else 0) := by
  cases pre <;>
    simp [DocsRequestBuilder.init, insertText_cursor, nl_length]

/-- C1: over any sequence of `add_paragraph`/`_insert_text` calls the
cursor never decreases, and after the sequence it equals the start index
plus the total number of inserted code units (counting the newline
`add_paragraph` appends and the newline inserted by `prepend_newline`). -/
theorem c1_cursor_monotone_and_totals :
    (∀ (b : DocsRequestBuilder) (c : BCall), b.cursor ≤ (applyCall b c).cursor) ∧
    (∀ (start : Int) (pre : Bool) (tab : Option String) (calls : List BCall),
      (applyCalls (DocsRequestBuilder.init start pre tab) calls).cursor =
        start + (if pre then 1 else 0) +
          ((calls.map (fun c => (insertedLen c : Int))).sum)) := by
  constructor
  · intro b c
    rw [applyCall_cursor]
    have : (0 : Int) ≤ (insertedLen c : Int) := Int.natCast_nonneg _
    omega
  · intro start pre tab calls
    rw [applyCalls_cursor, init_cursor]

/-- C10: for every parser, start index, prepend flag and tab id,
`build_markdown_requests` on empty markdown returns the empty request list
and the unchanged start index (no prepended newline is emitted even when
`prepend_newline` is set). -/
theorem c10_empty_markdown_noop :
    ∀ (parse : String → List Token) (start : Int) (pre : Bool)
      (tab : Option String),
      build_markdown_requests parse "" start pre tab = ([], start) := by
  intro parse start pre tab
  simp [build_markdown_requests]

lemma endsWithNl_append_nl (s : String) : endsWithNl (s ++ "\n") = true := by
  simp [endsWithNl, String.data_append]

/-- Modelled from the claim's words: the inserted text "ends with exactly
one trailing newline" — a final newline whose predecessor (if any) is not
itself a newline.  Stated for comparison with what `add_paragraph`
actually inserts. -/
def endsWithExactlyOneNl (s : String) : Bool :=
  endsWithNl s && !(endsWithNl (String.mk s.data.dropLast))

/-- C2 counterexample: `add_paragraph` on the text `"a\n\n"` inserts
`"a\n\n"` unchanged, which does not end with exactly one trailing newline
— the method only guarantees at least one. -/
theorem c2_counterexample_two_trailing_newlines :
    ((DocsRequestBuilder.init 1 false none).addParagraph "a\n\n" none [] none).requests
        = [Request.insertText ⟨1, none⟩ "a\n\n"] ∧
      endsWithExactlyOneNl "a\n\n" = false := by
  exact ⟨rfl, rfl⟩

/-- C2 (amended): `add_paragraph` is a no-op on empty text; otherwise the
text it inserts ends with at least one trailing newline — one is appended
exactly when the text does not already end in one, and an existing one is
never doubled — the inserted paragraph occupies the contiguous range
`[start, start + length of inserted text)`, and a truthy paragraph style
yields an updateParagraphStyle over exactly that range whose fields are
the comma-joined style key names. -/
theorem c2_amended_add_paragraph :
    ∀ (b : DocsRequestBuilder) (text : String) (ps : Option Style)
      (spans : List Span) (lt : Option String),
      (text = "" → b.addParagraph text ps spans lt = b) ∧
      (text ≠ "" →
        endsWithNl (insTextOf text) = true ∧
        (endsWithNl text = true → insTextOf text = text) ∧
        (endsWithNl text = false → insTextOf text = text ++ "\n") ∧
        (b.addParagraph text ps spans lt).requests =
          b.requests ++ Request.insertText ⟨b.cursor, tabOpt b.tabId⟩ (insTextOf text) ::
            (paraStyleReqs b.tabId b.cursor (b.cursor + (insTextOf text).length) ps ++
             spanReqs b.tabId b.cursor spans ++
             bulletReqs b.tabId b.cursor (b.cursor + (insTextOf text).length) lt) ∧
        (truthyStyle ps = true →
          paraStyleReqs b.tabId b.cursor (b.cursor + (insTextOf text).length) ps =
            [Request.updateParagraphStyle
              ⟨b.cursor, b.cursor + (insTextOf text).length, tabOpt b.tabId⟩
              (ps.getD []) (joinKeys (ps.getD []))])) := by
  intro b text ps spans lt
  constructor
  · intro h
    simp [DocsRequestBuilder.addParagraph, h]
  · intro h
    refine ⟨?_, ?_, ?_, ?_, ?_⟩
    · unfold insTextOf
      split
      · assumption
      · exact endsWithNl_append_nl text
    · intro he
      simp [insTextOf, he]
    · intro he
      simp [insTextOf, he]
    · exact addParagraph_requests b text ps spans lt h
    · intro hps
      simp [paraStyleReqs, hps]

/-- C2 witness: a concrete heading paragraph run through the amended
theorem. -/
theorem c2_amended_add_paragraph_witness :
    ((DocsRequestBuilder.init 1 false none).addParagraph "hi"
        (some [("namedStyleType", JVal.s "HEADING_1")]) [] none).requests =
      [Request.insertText ⟨1, none⟩ "hi\n",
       Request.updateParagraphStyle ⟨1, 4, none⟩
         [("namedStyleType", JVal.s "HEADING_1")] "namedStyleType"] := by
  have h := (c2_amended_add_paragraph (DocsRequestBuilder.init 1 false none) "hi"
      (some [("namedStyleType", JVal.s "HEADING_1")]) [] none).2 (by decide)
  rw [h.2.2.2.1]
  rfl

lemma endsWithNl_rstripNl (s : String) : endsWithNl (rstripNl s) = false := by
  apply decide_eq_false
  intro hc
  have h := List.head?_dropWhile_not (fun c => c = '\n') s.data.reverse
  have hc' : ((s.data.reverse.dropWhile (fun c => c = '\n'))).head? = some '\n' := by
    rw [← List.getLast?_reverse]
    exact hc
  rw [hc'] at h
  simp at h

lemma rstripNl_append_nl (s : String) : rstripNl (s ++ "\n") = rstripNl s := by
  unfold rstripNl rstripNlChars
  have hd : (s ++ "\n").data = s.data ++ ['\n'] := by
    simp [String.data_append]
  rw [hd]
  simp

lemma str_length_pos (s : String) (h : s ≠ "") : 0 < s.length := by
  cases s with
  | mk l =>
    cases l with
    | nil => exact absurd rfl h
    | cons c t => simp [String.length]

/-- Modelled from the spec: the external markdown parser (`markdown_it`,
not part of this repository) turns the C3 scenario markup into a single
fence token whose content is the fenced text with its trailing newline. -/
def exampleParse : String → List Token := fun s =>
  if s = "```\nprint(1)\n```" then [⟨"fence", "code", "print(1)\n", []⟩] else []

/-- C3 counterexample: on a fence whose content is two bare newlines, the
claimed strip-exactly-one-newline rule leaves the non-empty text `"\n"`
(so a paragraph insertion would be required), but the code's
`rstrip("\n")` strips both and emits no request at all. -/
theorem c3_counterexample_rstrip_all :
    stripOneNewline "\n\n" = "\n" ∧ ("\n" : String) ≠ "" ∧
      (renderLoop 2 (DocsRequestBuilder.init 1 false none)
        [⟨"fence", "", "\n\n", []⟩]).requests = [] := by
  refine ⟨rfl, by decide, rfl⟩

/-- C3 (amended): rendering a fenced code block strips all trailing
newlines from its content and, if the result is non-empty, emits exactly
one paragraph insertion with the indent/space-above/space-below paragraph
style and a single monospace/small-font/light-gray-background text-style
span over the whole code text; the `print(1)` fence renders to exactly one
insertText of `"print(1)\n"` with that span over the code text. -/
theorem c3_amended_fence_rendering :
    (∀ s : String, rstripNl (s ++ "\n") = rstripNl s) ∧
    (∀ (b : DocsRequestBuilder) (tag content : String) (ch : List Inline),
      rstripNl content ≠ "" →
      (renderLoop 2 b [⟨"fence", tag, content, ch⟩]).requests =
        b.requests ++
          [Request.insertText ⟨b.cursor, tabOpt b.tabId⟩ (rstripNl content ++ "\n"),
           Request.updateParagraphStyle
             ⟨b.cursor, b.cursor + ((rstripNl content).length + 1), tabOpt b.tabId⟩
             codeBlockParagraphStyle "indentStart,indentEnd,spaceAbove,spaceBelow",
           Request.updateTextStyle
             ⟨b.cursor, b.cursor + ((rstripNl content).length : Int), tabOpt b.tabId⟩
             codeSpanStyle "weightedFontFamily,fontSize,backgroundColor"]) ∧
    (build_markdown_requests exampleParse "```\nprint(1)\n```" 1 false none =
      ([Request.insertText ⟨1, none⟩ "print(1)\n",
        Request.updateParagraphStyle ⟨1, 10, none⟩ codeBlockParagraphStyle
          "indentStart,indentEnd,spaceAbove,spaceBelow",
        Request.updateTextStyle ⟨1, 9, none⟩ codeSpanStyle
          "weightedFontFamily,fontSize,backgroundColor"], 10)) := by
  refine ⟨rstripNl_append_nl, ?_, rfl⟩
  intro b tag content ch h
  have hloop : renderLoop 2 b [⟨"fence", tag, content, ch⟩] =
      b.addParagraph (rstripNl content) (some codeBlockParagraphStyle)
        [⟨0, ((rstripNl content).length : Int), codeSpanStyle⟩] none := by
    simp [renderLoop, h]
  rw [hloop, addParagraph_requests _ _ _ _ _ h]
  have hins : insTextOf (rstripNl content) = rstripNl content ++ "\n" := by
    unfold insTextOf
    rw [endsWithNl_rstripNl]
    simp
  have hpos : ¬(((rstripNl content).length : Int) ≤ (0 : Int)) := by
    have := str_length_pos _ h
    omega
  have hjk1 : joinKeys codeBlockParagraphStyle =
      "indentStart,indentEnd,spaceAbove,spaceBelow" := rfl
  have hjk2 : joinKeys codeSpanStyle =
      "weightedFontFamily,fontSize,backgroundColor" := rfl
  have hne2 : (!List.isEmpty codeBlockParagraphStyle) = true := rfl
  rw [hins]
  simp only [paraStyleReqs, spanReqs, bulletReqs]
  simp [truthyStyle, truthyS, hpos, hjk1, hjk2, hne2, String.length_append, nl_length,
    Nat.cast_add, Nat.cast_one]

/-- C3 witness: the amended fence rendering applied to a concrete one-line
fence. -/
theorem c3_amended_fence_rendering_witness :
    (renderLoop 2 (DocsRequestBuilder.init 1 false none)
        [⟨"fence", "code", "x\n", []⟩]).requests =
      [Request.insertText ⟨1, none⟩ "x\n",
       Request.updateParagraphStyle ⟨1, 3, none⟩ codeBlockParagraphStyle
         "indentStart,indentEnd,spaceAbove,spaceBelow",
       Request.updateTextStyle ⟨1, 2, none⟩ codeSpanStyle
         "weightedFontFamily,fontSize,backgroundColor"] := by
  have h := c3_amended_fence_rendering.2.1 (DocsRequestBuilder.init 1 false none)
      "code" "x\n" [] (by decide)
  rw [h]
  rfl

lemma charsBeginWith_append (l r : List Char) : charsBeginWith l (l ++ r) = true := by
  induction l with
  | nil => rfl
  | cons c t ih => simp [charsBeginWith, ih]

lemma removeAllOccFuel_congr (needle : List Char) :
    ∀ (fuel fuel' : Nat) (l : List Char), l.length ≤ fuel → l.length ≤ fuel' →
      removeAllOccFuel needle fuel l = removeAllOccFuel needle fuel' l := by
  intro fuel
  induction fuel with
  | zero =>
    intro fuel' l hl hl'
    have : l = [] := List.eq_nil_of_length_eq_zero (Nat.le_zero.mp hl)
    subst this
    cases fuel' <;> rfl
  | succ fuel ih =>
    intro fuel' l hl hl'
    cases l with
    | nil => cases fuel' <;> rfl
    | cons h t =>
      cases fuel' with
      | zero => simp at hl'
      | succ f' =>
        simp only [removeAllOccFuel]
        have ht : t.length ≤ fuel := by simp at hl; omega
        have ht' : t.length ≤ f' := by simp at hl'; omega
        have hdt : (List.drop (needle.length - 1) t).length ≤ fuel := by
          simp only [List.length_drop]
          omega
        have hdt' : (List.drop (needle.length - 1) t).length ≤ f' := by
          simp only [List.length_drop]
          omega
        split
        · exact ih f' _ hdt hdt'
        · rw [ih f' t ht ht']

lemma removeAllOcc_append_self (needle rest : List Char) (h : needle ≠ []) :
    removeAllOcc needle (needle ++ rest) = removeAllOcc needle rest := by
  cases needle with
  | nil => exact absurd rfl h
  | cons c nt =>
    unfold removeAllOcc
    have hlen : ((c :: nt) ++ rest).length = (nt ++ rest).length + 1 := by
      simp
    rw [hlen, List.cons_append, removeAllOccFuel]
    rw [if_pos ⟨h, by rw [← List.cons_append]; exact charsBeginWith_append (c :: nt) rest⟩]
    have hdrop : List.drop ((c :: nt).length - 1) (nt ++ rest) = rest := by
      simp only [List.length_cons, Nat.add_sub_cancel]
      exact List.drop_left nt rest
    rw [hdrop]
    apply removeAllOccFuel_congr
    · simp
    · exact Nat.le_refl _

lemma removeAllOcc_heading_digits (s : List Char)
    (hs : ∀ c ∈ s, Char.isDigit c = true) :
    removeAllOcc "HEADING_".data s = s := by
  induction s with
  | nil => rfl
  | cons c t ih =>
    unfold removeAllOcc
    rw [List.length_cons, removeAllOccFuel]
    have hch : charsBeginWith "HEADING_".data (c :: t) = false := by
      have hc : c ≠ 'H' := by
        intro hc
        have := hs c (List.mem_cons_self c t)
        rw [hc] at this
        exact absurd this (by decide)
      show (decide ('H' = c) && _) = false
      have : decide ('H' = c) = false := by
        simp only [decide_eq_false_iff_not]
        exact fun hx => hc hx.symm
      rw [this, Bool.false_and]
    rw [if_neg (by simp [hch])]
    unfold removeAllOcc at ih
    rw [ih (fun c hc => hs c (List.mem_cons_of_mem _ hc))]

lemma pyRemoveAll_heading (s : String) (hs : s.data.all Char.isDigit = true) :
    pyRemoveAll ("HEADING_" ++ s) "HEADING_" = s := by
  unfold pyRemoveAll
  rw [show ("HEADING_" ++ s).data = "HEADING_".data ++ s.data from String.data_append _ _]
  rw [removeAllOcc_append_self _ _ (by decide)]
  rw [removeAllOcc_heading_digits s.data (by simpa [List.all_eq_true] using hs)]

lemma empty_str_append (s : String) : "" ++ s = s := by
  cases s
  rfl

/-- The light-gray background dict emitted by the renderer, as read back
by the extractor's heuristics. -/
def exampleGrayBg : BgColor :=
  ⟨some ⟨some ⟨some (mkRat 19 20), some (mkRat 19 20), some (mkRat 19 20)⟩⟩⟩

/-- A monospace + gray-background run style. -/
def exampleMonoGrayStyle : TextStyle := ⟨some ⟨some "Roboto Mono"⟩, some exampleGrayBg⟩

/-- The C4 scenario document: a HEADING_1 paragraph "A", a plain "body",
a code-styled "x=1", then a plain "end". -/
def exampleDocC4 : Document :=
  ⟨some "T",
   some ⟨[⟨none, some ⟨some ⟨some "HEADING_1"⟩, [⟨some ⟨"A\n", none⟩⟩]⟩⟩,
          ⟨none, some ⟨none, [⟨some ⟨"body\n", none⟩⟩]⟩⟩,
          ⟨none, some ⟨none, [⟨some ⟨"x=1\n", some exampleMonoGrayStyle⟩⟩]⟩⟩,
          ⟨none, some ⟨none, [⟨some ⟨"end\n", none⟩⟩]⟩⟩]⟩,
   []⟩

/-- C4: during extraction a fence chunk is emitted exactly at each
transition of the in-code-block flag (and once more at the end of the walk
if a code block is still open); a heading paragraph with digit level `s`
and non-empty text is emitted as `'#' * level ++ " " ++ text ++ "\n\n"`;
and the concrete four-paragraph document extracts to exactly
`"# A\n\nbody\n```\nx=1\n```\nend"`. -/
theorem c4_extractor_fences_and_headings :
    (∀ (inCode : Bool) (p : Paragraph) (rest : List StructuralElement),
      extractGo inCode (⟨none, some p⟩ :: rest) =
        (if isCodeBlockParagraph p ≠ inCode then ["```\n"] else []) ++
          (paragraphChunks p ++ extractGo (isCodeBlockParagraph p) rest)) ∧
    (extractGo true [] = ["```\n"]) ∧
    (extractGo false [] = []) ∧
    (∀ (s text : String), pyIsDigit s = true → rstripNl text = text →
      text ≠ "" → text.data.head? ≠ some markerChar →
      paragraphChunks ⟨some ⟨some ("HEADING_" ++ s)⟩, [⟨some ⟨text, none⟩⟩]⟩ =
        [String.mk (List.replicate (strToNat s) '#') ++ " " ++ text ++ "\n\n"]) ∧
    (extractPlainText exampleDocC4 = "# A\n\nbody\n```\nx=1\n```\nend") := by
  refine ⟨?_, rfl, rfl, ?_, by decide⟩
  · intro inCode p rest
    cases hcode : isCodeBlockParagraph p <;> cases inCode <;>
      simp [extractGo, hcode]
  · intro s text hdig hstrip hne hmark
    have hcode : isCodeBlockParagraph
        ⟨some ⟨some ("HEADING_" ++ s)⟩, [⟨some ⟨text, none⟩⟩]⟩ = false := by
      simp only [isCodeBlockParagraph]
      rw [if_neg hmark]
      rfl
    unfold paragraphChunks
    rw [hcode]
    simp only [List.enum, List.enumFrom, List.map]
    rw [if_neg hne]
    simp only [Bool.false_eq_true, false_and, and_false, if_false]
    rw [show String.join [text] = "" ++ text from rfl, empty_str_append, hstrip]
    rw [if_neg hne]
    have hsw : pyStartsWith ("HEADING_" ++ s) "HEADING_" = true := by
      unfold pyStartsWith
      rw [String.data_append]
      exact charsBeginWith_append _ _
    simp only [Option.getD]
    rw [hsw]
    simp only [if_true]
    have hdig' := hdig
    simp only [pyIsDigit, Bool.and_eq_true, decide_eq_true_eq] at hdig'
    rw [pyRemoveAll_heading s hdig'.2]
    rw [if_pos hdig]

/-- C4 witness: the heading-formatting clause at a concrete level-1
heading paragraph. -/
theorem c4_extractor_fences_and_headings_witness :
    paragraphChunks ⟨some ⟨some "HEADING_1"⟩, [⟨some ⟨"A", none⟩⟩]⟩ = ["# A\n\n"] := by
  have h := c4_extractor_fences_and_headings.2.2.2.1 "1" "A" (by decide) (by decide)
      (by decide) (by decide)
  exact h

/-- The inline children actually produced by the markdown parser: an
inline-code run always has non-empty content (an empty code span does not
exist in the grammar). -/
def goodInline : Inline → Bool
  | .code_inline s => s ≠ ""
  | _ => true

lemma popFrame_mem (k : String) :
    ∀ (l : List Frame) (f : Frame) (rest : List Frame),
      popFrame k l = some (f, rest) → f ∈ l ∧ ∀ g ∈ rest, g ∈ l := by
  intro l
  induction l with
  | nil => intro f rest h; simp [popFrame] at h
  | cons a t ih =>
    intro f rest h
    rw [popFrame] at h
    by_cases ha : a.kind = k
    · rw [if_pos ha] at h
      obtain ⟨h1, h2⟩ := Prod.mk.injEq .. ▸ (Option.some.inj h)
      subst h1
      subst h2
      exact ⟨List.mem_cons_self a t, fun g hg => List.mem_cons_of_mem a hg⟩
    · rw [if_neg ha] at h
      cases hrec : popFrame k t with
      | none => rw [hrec] at h; simp at h
      | some p =>
        rw [hrec] at h
        obtain ⟨g, rest'⟩ := p
        obtain ⟨h1, h2⟩ := Prod.mk.injEq .. ▸ (Option.some.inj h)
        subst h1
        obtain ⟨hg, hsub⟩ := ih g rest' hrec
        subst h2
        refine ⟨List.mem_cons_of_mem a hg, ?_⟩
        intro x hx
        rcases List.mem_cons.mp hx with hx | hx
        · exact hx ▸ List.mem_cons_self a t
        · exact List.mem_cons_of_mem a (hsub x hx)

/-- The invariant threaded through `_parse_inline`'s loop: the cursor
equals the accumulated text length, open frames start at or before the
cursor, and every emitted span is non-degenerate and inside the text. -/
def InlineInv (st : InlineState) : Prop :=
  st.cursor = st.text.length ∧
  (∀ f ∈ st.stack, f.start ≤ st.cursor) ∧
  (∀ sp ∈ st.spans, 0 ≤ sp.start ∧ sp.start < sp.endIdx ∧
    sp.endIdx ≤ (st.cursor : Int))

lemma stepInline_inv (st : InlineState) (c : Inline)
    (hg : goodInline c = true) (h : InlineInv st) :
    InlineInv (stepInline st c) := by
  obtain ⟨h1, h2, h3⟩ := h
  cases c with
  | text s =>
    refine ⟨?_, ?_, ?_⟩
    · simp [stepInline, String.length_append, h1]
    · intro f hf
      have := h2 f hf
      simp only [stepInline]
      omega
    · intro sp hsp
      have := h3 sp hsp
      simp only [stepInline] at hsp ⊢
      refine ⟨this.1, this.2.1, ?_⟩
      have hc : (st.cursor : Int) ≤ ((st.cursor + s.length : Nat) : Int) := by
        omega
      exact le_trans this.2.2 hc
  | softbreak =>
    refine ⟨?_, ?_, ?_⟩
    · simp [stepInline, String.length_append, h1, nl_length]
    · intro f hf
      have := h2 f hf
      simp only [stepInline]
      omega
    · intro sp hsp
      have := h3 sp hsp
      refine ⟨this.1, this.2.1, ?_⟩
      have hc : (st.cursor : Int) ≤ ((st.cursor + 1 : Nat) : Int) := by omega
      exact le_trans this.2.2 hc
  | hardbreak =>
    refine ⟨?_, ?_, ?_⟩
    · simp [stepInline, String.length_append, h1, nl_length]
    · intro f hf
      have := h2 f hf
      simp only [stepInline]
      omega
    · intro sp hsp
      have := h3 sp hsp
      refine ⟨this.1, this.2.1, ?_⟩
      have hc : (st.cursor : Int) ≤ ((st.cursor + 1 : Nat) : Int) := by omega
      exact le_trans this.2.2 hc
  | strong_open =>
    refine ⟨h1, ?_, h3⟩
    intro f hf
    rcases List.mem_cons.mp hf with hf | hf
    · subst hf; exact Nat.le_refl _
    · exact h2 f hf
  | em_open =>
    refine ⟨h1, ?_, h3⟩
    intro f hf
    rcases List.mem_cons.mp hf with hf | hf
    · subst hf; exact Nat.le_refl _
    · exact h2 f hf
  | link_open href =>
    refine ⟨h1, ?_, h3⟩
    intro f hf
    rcases List.mem_cons.mp hf with hf | hf
    · subst hf; exact Nat.le_refl _
    · exact h2 f hf
  | strong_close =>
    cases hpop : popFrame "bold" st.stack with
    | none => simp only [stepInline, hpop]; exact ⟨h1, h2, h3⟩
    | some p =>
      obtain ⟨f, rest⟩ := p
      obtain ⟨hmem, hsub⟩ := popFrame_mem "bold" st.stack f rest hpop
      simp only [stepInline, hpop]
      by_cases hlt : f.start < st.cursor
      · rw [if_pos hlt]
        refine ⟨h1, fun g hg => h2 g (hsub g hg), ?_⟩
        intro sp hsp
        rcases List.mem_append.mp hsp with hsp | hsp
        · exact h3 sp hsp
        · rcases List.mem_singleton.mp hsp with rfl
          refine ⟨Int.natCast_nonneg _, ?_, le_refl _⟩
          show (f.start : Int) < (st.cursor : Int)
          exact_mod_cast hlt
      · rw [if_neg hlt]
        exact ⟨h1, fun g hg => h2 g (hsub g hg), h3⟩
  | em_close =>
    cases hpop : popFrame "italic" st.stack with
    | none => simp only [stepInline, hpop]; exact ⟨h1, h2, h3⟩
    | some p =>
      obtain ⟨f, rest⟩ := p
      obtain ⟨hmem, hsub⟩ := popFrame_mem "italic" st.stack f rest hpop
      simp only [stepInline, hpop]
      by_cases hlt : f.start < st.cursor
      · rw [if_pos hlt]
        refine ⟨h1, fun g hg => h2 g (hsub g hg), ?_⟩
        intro sp hsp
        rcases List.mem_append.mp hsp with hsp | hsp
        · exact h3 sp hsp
        · rcases List.mem_singleton.mp hsp with rfl
          refine ⟨Int.natCast_nonneg _, ?_, le_refl _⟩
          show (f.start : Int) < (st.cursor : Int)
          exact_mod_cast hlt
      · rw [if_neg hlt]
        exact ⟨h1, fun g hg => h2 g (hsub g hg), h3⟩
  | link_close =>
    cases hpop : popFrame "link" st.stack with
    | none => simp only [stepInline, hpop]; exact ⟨h1, h2, h3⟩
    | some p =>
      obtain ⟨f, rest⟩ := p
      obtain ⟨hmem, hsub⟩ := popFrame_mem "link" st.stack f rest hpop
      simp only [stepInline, hpop]
      by_cases hlt : f.start < st.cursor ∧ truthyS f.href = true
      · rw [if_pos hlt]
        refine ⟨h1, fun g hg => h2 g (hsub g hg), ?_⟩
        intro sp hsp
        rcases List.mem_append.mp hsp with hsp | hsp
        · exact h3 sp hsp
        · rcases List.mem_singleton.mp hsp with rfl
          refine ⟨Int.natCast_nonneg _, ?_, le_refl _⟩
          show (f.start : Int) < (st.cursor : Int)
          exact_mod_cast hlt.1
      · rw [if_neg hlt]
        exact ⟨h1, fun g hg => h2 g (hsub g hg), h3⟩
  | code_inline s =>
    have hpos : 0 < s.length := str_length_pos s (by simpa [goodInline] using hg)
    refine ⟨?_, ?_, ?_⟩
    · simp [stepInline, String.length_append, h1]
    · intro f hf
      have := h2 f hf
      simp only [stepInline]
      omega
    · intro sp hsp
      simp only [stepInline] at hsp
      rcases List.mem_append.mp hsp with hsp | hsp
      · have := h3 sp hsp
        refine ⟨this.1, this.2.1, ?_⟩
        have hc : (st.cursor : Int) ≤ ((st.cursor + s.length : Nat) : Int) := by omega
        exact le_trans this.2.2 hc
      · rcases List.mem_singleton.mp hsp with rfl
        refine ⟨Int.natCast_nonneg _, ?_, le_refl _⟩
        show (st.cursor : Int) < ((st.cursor + s.length : Nat) : Int)
        exact_mod_cast Nat.lt_add_of_pos_right hpos
  | other =>
    exact ⟨h1, h2, h3⟩

lemma foldl_stepInline_inv :
    ∀ (children : List Inline) (st : InlineState),
      (∀ c ∈ children, goodInline c = true) → InlineInv st →
      InlineInv (children.foldl stepInline st) := by
  intro children
  induction children with
  | nil => intro st _ h; exact h
  | cons c t ih =>
    intro st hg h
    exact ih (stepInline st c)
      (fun x hx => hg x (List.mem_cons_of_mem c hx))
      (stepInline_inv st c (hg c (List.mem_cons_self c t)) h)

lemma spanReqs_bounds (tab : Option String) (s : Int) (spans : List Span)
    (n : Int) (h : ∀ sp ∈ spans, 0 ≤ sp.start ∧ sp.endIdx ≤ n) :
    ∀ r ∈ spanReqs tab s spans, ∀ rng st f, r = Request.updateTextStyle rng st f →
      s ≤ rng.startIndex ∧ rng.startIndex < rng.endIndex ∧ rng.endIndex ≤ s + n := by
  intro r hr rng st f hrf
  unfold spanReqs at hr
  rcases List.mem_map.mp hr with ⟨sp, hsp, heq⟩
  rcases List.mem_filter.mp hsp with ⟨hmem, hcond⟩
  have hlt : sp.start < sp.endIdx := by
    simp only [Bool.not_eq_eq_eq_not, Bool.not_true, decide_eq_false_iff_not] at hcond
    omega
  obtain ⟨h0, hn⟩ := h sp hmem
  rw [← heq] at hrf
  simp only [Request.updateTextStyle.injEq] at hrf
  obtain ⟨hrng, -, -⟩ := hrf
  subst hrng
  refine ⟨?_, ?_, ?_⟩ <;> simp <;> omega

/-- C5: every span the inline parser emits (on parser-producible input,
i.e. no empty inline-code runs) satisfies `0 ≤ start < end ≤ text length`;
every updateTextStyle range `add_paragraph` projects from such spans is
non-degenerate and lies inside the inserted paragraph's extent; and a
degenerate span (`end ≤ start`) is skipped at projection time. -/
theorem c5_span_offsets_valid :
    (∀ (children : List Inline), (∀ c ∈ children, goodInline c = true) →
      ∀ sp ∈ (parseInline children).2,
        0 ≤ sp.start ∧ sp.start < sp.endIdx ∧
          sp.endIdx ≤ ((parseInline children).1.length : Int)) ∧
    (∀ (tab : Option String) (s : Int) (spans : List Span) (n : Int),
      (∀ sp ∈ spans, 0 ≤ sp.start ∧ sp.endIdx ≤ n) →
      ∀ r ∈ spanReqs tab s spans, ∀ rng st f, r = Request.updateTextStyle rng st f →
        s ≤ rng.startIndex ∧ rng.startIndex < rng.endIndex ∧ rng.endIndex ≤ s + n) ∧
    (∀ (tab : Option String) (s : Int) (sp : Span), sp.endIdx ≤ sp.start →
      spanReqs tab s [sp] = []) ∧
    (∀ (b : DocsRequestBuilder) (text : String) (ps : Option Style)
      (spans : List Span) (lt : Option String),
      text ≠ "" →
      (∀ sp ∈ spans, 0 ≤ sp.start ∧ sp.endIdx ≤ (text.length : Int)) →
      ∀ r ∈ (b.addParagraph text ps spans lt).requests.drop b.requests.length,
        ∀ rng st f, r = Request.updateTextStyle rng st f →
          b.cursor ≤ rng.startIndex ∧ rng.startIndex < rng.endIndex ∧
            rng.endIndex ≤ b.cursor + ((insTextOf text).length : Int)) := by
  refine ⟨?_, spanReqs_bounds, ?_, ?_⟩
  · intro children hg sp hsp
    have hinv := foldl_stepInline_inv children ⟨"", [], 0, []⟩ hg
      ⟨rfl, by simp, by simp⟩
    obtain ⟨h1, -, h3⟩ := hinv
    have hb := h3 sp hsp
    refine ⟨hb.1, hb.2.1, ?_⟩
    have := hb.2.2
    rw [h1] at this
    exact this
  · intro tab s sp h
    simp [spanReqs, List.filter, h]
  · intro b text ps spans lt ht hsp r hr rng st f hrf
    rw [addParagraph_requests b text ps spans lt ht, List.drop_left] at hr
    rcases List.mem_cons.mp hr with hr | hr
    · subst hr
      simp at hrf
    · rcases List.mem_append.mp hr with hr | hr
      · rcases List.mem_append.mp hr with hr | hr
        · unfold paraStyleReqs at hr
          split at hr
          · rcases List.mem_singleton.mp hr with rfl
            simp at hrf
          · simp at hr
        · have hb := spanReqs_bounds b.tabId b.cursor spans (text.length : Int)
            hsp r hr rng st f hrf
          refine ⟨hb.1, hb.2.1, ?_⟩
          have hle : (text.length : Int) ≤ ((insTextOf text).length : Int) := by
            rw [insTextOf_length]
            split <;> simp
          omega
      · unfold bulletReqs at hr
        split at hr
        · rcases List.mem_singleton.mp hr with rfl
          simp at hrf
        · simp at hr

/-- A concrete inline run: plain text, then a bold region. -/
def c5ExampleChildren : List Inline :=
  [.text "ab", .strong_open, .text "cd", .strong_close]

/-- C5 witness: the parser invariant at a concrete bold span. -/
theorem c5_span_offsets_valid_witness :
    (0 : Int) ≤ (2 : Int) ∧ (2 : Int) < (4 : Int) ∧
      (4 : Int) ≤ ((parseInline c5ExampleChildren).1.length : Int) := by
  have hm : (⟨2, 4, [("bold", JVal.b true)]⟩ : Span) ∈ (parseInline c5ExampleChildren).2 := by
    rw [show (parseInline c5ExampleChildren).2 =
      [⟨2, 4, [("bold", JVal.b true)]⟩] from rfl]
    exact List.mem_singleton.mpr rfl
  exact c5_span_offsets_valid.1 c5ExampleChildren (by decide) _ hm

lemma popFrame_innermost (k : String) :
    ∀ (pre : List Frame) (f : Frame) (post : List Frame),
      (∀ g ∈ pre, g.kind ≠ k) → f.kind = k →
      popFrame k (pre ++ f :: post) = some (f, pre ++ post) := by
  intro pre
  induction pre with
  | nil =>
    intro f post _ hf
    rw [List.nil_append, popFrame, if_pos hf, List.nil_append]
  | cons g t ih =>
    intro f post hpre hf
    rw [List.cons_append, popFrame,
      if_neg (hpre g (List.mem_cons_self g t)),
      ih f post (fun x hx => hpre x (List.mem_cons_of_mem g hx)) hf,
      List.cons_append]

/-- The inline children that can append a span: the three closing
delimiters and inline code. -/
def emitsSpan : Inline → Bool
  | .strong_close => true
  | .em_close => true
  | .link_close => true
  | .code_inline _ => true
  | _ => false

lemma stepInline_spans_of_not_emits (st : InlineState) (c : Inline)
    (h : emitsSpan c = false) : (stepInline st c).spans = st.spans := by
  cases c <;> simp_all [stepInline, emitsSpan]

/-- C6: a closing delimiter pops the innermost open frame of its own kind
(searching from the top of the stack down, not strict LIFO across kinds)
and emits a bold/italic/link span over `[frame start, cursor)` exactly
when the frame start is strictly below the cursor — and, for links, a
truthy destination URL was captured; children that are not closing
delimiters or inline code never emit a span, so unclosed frames at end of
input produce no span and no error. -/
theorem c6_close_delimiters_and_leniency :
    (∀ (k : String) (pre : List Frame) (f : Frame) (post : List Frame),
      (∀ g ∈ pre, g.kind ≠ k) → f.kind = k →
      popFrame k (pre ++ f :: post) = some (f, pre ++ post)) ∧
    (∀ (st : InlineState) (pre : List Frame) (f : Frame) (post : List Frame),
      st.stack = pre ++ f :: post → (∀ g ∈ pre, g.kind ≠ "bold") →
      f.kind = "bold" →
      (stepInline st .strong_close).stack = pre ++ post ∧
      (stepInline st .strong_close).text = st.text ∧
      (stepInline st .strong_close).cursor = st.cursor ∧
      (stepInline st .strong_close).spans = st.spans ++
        (if f.start < st.cursor then
          [⟨(f.start : Int), (st.cursor : Int), [("bold", JVal.b true)]⟩]
        else [])) ∧
    (∀ (st : InlineState) (pre : List Frame) (f : Frame) (post : List Frame),
      st.stack = pre ++ f :: post → (∀ g ∈ pre, g.kind ≠ "italic") →
      f.kind = "italic" →
      (stepInline st .em_close).stack = pre ++ post ∧
      (stepInline st .em_close).text = st.text ∧
      (stepInline st .em_close).cursor = st.cursor ∧
      (stepInline st .em_close).spans = st.spans ++
        (if f.start < st.cursor then
          [⟨(f.start : Int), (st.cursor : Int), [("italic", JVal.b true)]⟩]
        else [])) ∧
    (∀ (st : InlineState) (pre : List Frame) (f : Frame) (post : List Frame),
      st.stack = pre ++ f :: post → (∀ g ∈ pre, g.kind ≠ "link") →
      f.kind = "link" →
      (stepInline st .link_close).stack = pre ++ post ∧
      (stepInline st .link_close).text = st.text ∧
      (stepInline st .link_close).cursor = st.cursor ∧
      (stepInline st .link_close).spans = st.spans ++
        (if f.start < st.cursor ∧ truthyS f.href = true then
          [⟨(f.start : Int), (st.cursor : Int),
            [("link", JVal.obj [("url", JVal.s (f.href.getD ""))])]⟩]
        else [])) ∧
    (∀ (children : List Inline), (∀ c ∈ children, emitsSpan c = false) →
      (parseInline children).2 = []) := by
  refine ⟨popFrame_innermost, ?_, ?_, ?_, ?_⟩
  · intro st pre f post hst hpre hf
    by_cases hlt : f.start < st.cursor <;>
      refine ⟨?_, ?_, ?_, ?_⟩ <;>
        simp [stepInline, hst, popFrame_innermost "bold" pre f post hpre hf, hlt]
  · intro st pre f post hst hpre hf
    by_cases hlt : f.start < st.cursor <;>
      refine ⟨?_, ?_, ?_, ?_⟩ <;>
        simp [stepInline, hst, popFrame_innermost "italic" pre f post hpre hf, hlt]
  · intro st pre f post hst hpre hf
    by_cases hlt : f.start < st.cursor ∧ truthyS f.href = true <;>
      refine ⟨?_, ?_, ?_, ?_⟩ <;>
        simp [stepInline, hst, popFrame_innermost "link" pre f post hpre hf, hlt]
  · intro children
    suffices h : ∀ (st : InlineState), (∀ c ∈ children, emitsSpan c = false) →
        (children.foldl stepInline st).spans = st.spans by
      intro hc
      exact h ⟨"", [], 0, []⟩ hc
    induction children with
    | nil => intro st _; rfl
    | cons c t ih =>
      intro st hc
      rw [List.foldl_cons, ih (stepInline st c)
        (fun x hx => hc x (List.mem_cons_of_mem c hx)),
        stepInline_spans_of_not_emits st c (hc c (List.mem_cons_self c t))]

/-- C6 witness: popping "bold" skips a more recently opened "link" frame
and removes the innermost bold frame only. -/
theorem c6_close_delimiters_and_leniency_witness :
    popFrame "bold" [⟨"link", 5, some "u"⟩, ⟨"bold", 2, none⟩, ⟨"bold", 1, none⟩] =
      some (⟨"bold", 2, none⟩, [⟨"link", 5, some "u"⟩, ⟨"bold", 1, none⟩]) := by
  exact c6_close_delimiters_and_leniency.1 "bold" [⟨"link", 5, some "u"⟩]
    ⟨"bold", 2, none⟩ [⟨"bold", 1, none⟩] (by decide) rfl

/-- The C7 scenario tab tree: A with children [B, C], C with child [D]. -/
def exampleTabA : Tab :=
  .mk (some ⟨some "A", some "A"⟩)
    [.mk (some ⟨some "B", some "B"⟩) [],
     .mk (some ⟨some "C", some "C"⟩) [.mk (some ⟨some "D", some "D"⟩) []]]

/-- A document carrying the C7 scenario tree. -/
def exampleTabDoc : Document := ⟨some "doc", none, [exampleTabA]⟩

/-- C7: tab flattening is a pre-order traversal — each node is yielded
before its children, children are walked at depth+1 with the node's id as
parent, and siblings stay in order; the A/[B,C[D]] tree flattens to
exactly the four stated entries; and a document with no tabs yields one
synthetic root entry, so the metadata list is never empty. -/
theorem c7_tab_flatten_preorder :
    (∀ (t : Tab) (ts : List Tab) (d : Nat) (p : Option String),
      iterTabs (t :: ts) d p = iterTabs [t] d p ++ iterTabs ts d p) ∧
    (∀ (t : Tab) (d : Nat) (p : Option String),
      iterTabs [t] d p = (t, d, p) :: iterTabs t.childTabs (d + 1) t.tabIdOf) ∧
    (∀ (doc : Document), listTabMetadata doc ≠ []) ∧
    (∀ (title : Option String) (body : Option Body),
      listTabMetadata ⟨title, body, []⟩ = [⟨none, title, 0, none⟩]) ∧
    (listTabMetadata exampleTabDoc =
      [⟨some "A", some "A", 0, none⟩, ⟨some "B", some "B", 1, some "A"⟩,
       ⟨some "C", some "C", 1, some "A"⟩, ⟨some "D", some "D", 2, some "C"⟩]) := by
  refine ⟨?_, ?_, ?_, ?_, ?_⟩
  · intro t ts d p
    cases t with
    | mk props children => simp [iterTabs]
  · intro t d p
    cases t with
    | mk props children =>
      simp [iterTabs, Tab.childTabs, Tab.tabIdOf, Tab.tabProperties]
  · intro doc
    simp only [listTabMetadata]
    split
    · simp
    · rename_i h
      intro hc
      rw [hc] at h
      exact h rfl
  · intro title body
    simp [listTabMetadata, iterTabs]
  · simp [listTabMetadata, iterTabs, exampleTabDoc, exampleTabA,
      TabProps.empty, Tab.tabProperties]

/-- C7 witness: the synthetic-root clause at a concrete tabless document. -/
theorem c7_tab_flatten_preorder_witness :
    listTabMetadata ⟨some "X", none, []⟩ = [⟨none, some "X", 0, none⟩] := by
  exact c7_tab_flatten_preorder.2.2.2.1 (some "X") none

lemma charsContain_of_begin (n hay : List Char)
    (h : charsBeginWith n hay = true) : charsContain n hay = true := by
  cases hay with
  | nil => simpa [charsContain] using h
  | cons c t => simp [charsContain, h]

lemma charsContain_append_mid (n x y : List Char) :
    charsContain n (x ++ (n ++ y)) = true := by
  induction x with
  | nil => simpa using charsContain_of_begin n (n ++ y) (charsBeginWith_append n y)
  | cons c t ih => simp [charsContain, ih]

/-- A document with one tab whose id is "t1" (and no empty-string id
anywhere). -/
def exampleTabDocOne : Document :=
  ⟨some "doc", none, [Tab.mk (some ⟨some "t1", some "T1"⟩) []]⟩

/-- C8 counterexample: the id `""` is absent from the flattened tab list,
yet requesting it raises no error — Python truthiness treats `""` like
"no id requested" and the first tab is returned instead. -/
theorem c8_counterexample_empty_string_id :
    ((flattenTabs exampleTabDocOne).all (fun t => !(t.tabIdOf = some ""))) = true ∧
      resolveTab exampleTabDocOne (some "") =
        Except.ok (some (Tab.mk (some ⟨some "t1", some "T1"⟩) []), some "t1") := by
  constructor
  · simp [flattenTabs, iterTabs, exampleTabDocOne, Tab.tabIdOf,
      Tab.tabProperties, TabProps.empty]
  · simp [resolveTab, truthyS, flattenTabs, iterTabs, exampleTabDocOne,
      Tab.tabIdOf, Tab.tabProperties, TabProps.empty]

/-- C8 (amended): requesting a NON-EMPTY tab id absent from the flattened
list raises an error whose message names the id; requesting no id returns
the first tab in traversal order with its own id; and on a tabless
document requesting no id resolves to the whole document without error. -/
theorem c8_amended_resolve_tab :
    (∀ (doc : Document) (id : String), id ≠ "" →
      (∀ t ∈ flattenTabs doc, t.tabIdOf ≠ some id) →
      resolveTab doc (some id) =
        Except.error ("Tab '" ++ id ++ "' not found in document.")) ∧
    (∀ (id : String),
      strContains ("Tab '" ++ id ++ "' not found in document.") id = true) ∧
    (∀ (doc : Document) (t : Tab) (rest : List Tab),
      flattenTabs doc = t :: rest →
      resolveTab doc none = Except.ok (some t, t.tabIdOf)) ∧
    (∀ (doc : Document), doc.tabs = [] →
      resolveTab doc none = Except.ok (none, none)) := by
  refine ⟨?_, ?_, ?_, ?_⟩
  · intro doc id hid hnone
    unfold resolveTab
    rw [if_pos (by simp [truthyS, hid])]
    have hfind : (flattenTabs doc).find? (fun t => t.tabIdOf = some id) = none := by
      apply List.find?_eq_none.mpr
      intro t ht
      simp [hnone t ht]
    rw [hfind]
    rfl
  · intro id
    unfold strContains
    rw [String.data_append, String.data_append, List.append_assoc]
    exact charsContain_append_mid _ _ _
  · intro doc t rest hflat
    unfold resolveTab
    rw [if_neg (by simp [truthyS]), hflat]
  · intro doc htabs
    unfold resolveTab
    rw [if_neg (by simp [truthyS])]
    have hflat : flattenTabs doc = [] := by
      simp [flattenTabs, htabs, iterTabs]
    rw [hflat]

/-- C8 witness: resolving the absent id "ZZ" on the one-tab document. -/
theorem c8_amended_resolve_tab_witness :
    resolveTab exampleTabDocOne (some "ZZ") =
      Except.error "Tab 'ZZ' not found in document." := by
  have h := c8_amended_resolve_tab.1 exampleTabDocOne "ZZ" (by decide) (by
    intro t ht
    simp only [flattenTabs, iterTabs, exampleTabDocOne] at ht
    simp at ht
    simp [ht, Tab.tabIdOf, Tab.tabProperties, TabProps.empty])
  exact h

/-- C9: a table with exactly one row and one cell, whose cell background
has all three rgb channels above the 0.9 threshold and which contains some
run in a monospace font family, is classified as a code block whatever the
cell's text content (the content list is arbitrary beyond the one
monospace run, whose text may be empty). -/
theorem c9_code_block_table_heuristic :
    ∀ (cell : TableCell) (r g b : ℚ),
      bgRgbOf (cell.tableCellStyle.getD CellStyle.empty).backgroundColor =
        ⟨some r, some g, some b⟩ →
      mkRat 9 10 < r → mkRat 9 10 < g → mkRat 9 10 < b →
      (∃ ce ∈ cell.content, ∃ p, ce.paragraph = some p ∧
        ∃ el ∈ p.elements, ∃ tr, el.textRun = some tr ∧
          isMonoFamily (tr.textStyle.getD TextStyle.empty).fontFamilyOf = true) →
      isCodeBlockTable ⟨[⟨[cell]⟩]⟩ = true := by
  intro cell r g b hbg hr hg hb hmono
  show (isGrayRgb (bgRgbOf (cell.tableCellStyle.getD CellStyle.empty).backgroundColor)
      && cellHasMonospace cell) = true
  have h1 : isGrayRgb (bgRgbOf (cell.tableCellStyle.getD CellStyle.empty).backgroundColor)
      = true := by
    rw [hbg]
    simp [isGrayRgb, hr, hg, hb]
  have h2 : cellHasMonospace cell = true := by
    rcases hmono with ⟨ce, hce, p, hp, el, hel, tr, htr, hm⟩
    unfold cellHasMonospace
    rw [List.any_eq_true]
    refine ⟨ce, hce, ?_⟩
    simp only [hp]
    rw [List.any_eq_true]
    refine ⟨el, hel, ?_⟩
    simp only [htr]
    exact hm
  rw [h1, h2]
  rfl

/-- A monospace run with empty text content. -/
def exampleMonoRun : TextRun := ⟨"", some ⟨some ⟨some "Roboto Mono"⟩, none⟩⟩

/-- A paragraph holding only the empty monospace run. -/
def exampleCodePara : Paragraph := ⟨none, [⟨some exampleMonoRun⟩]⟩

/-- A gray 1×1-table cell whose only text content is empty. -/
def exampleCodeCell : TableCell := ⟨some ⟨some exampleGrayBg⟩, [⟨some exampleCodePara⟩]⟩

/-- C9 witness: the heuristic fires on a gray monospace cell whose text is
empty. -/
theorem c9_code_block_table_heuristic_witness :
    isCodeBlockTable ⟨[⟨[exampleCodeCell]⟩]⟩ = true := by
  apply c9_code_block_table_heuristic exampleCodeCell
      (mkRat 19 20) (mkRat 19 20) (mkRat 19 20) rfl
      (by decide) (by decide) (by decide)
  exact ⟨⟨some exampleCodePara⟩, List.mem_cons_self _ _, exampleCodePara, rfl,
    ⟨some exampleMonoRun⟩, List.mem_cons_self _ _, exampleMonoRun, rfl, by decide⟩
